import Mathlib

/-!
# Verification of the sefara expression-evaluation and collection-query engine

A shallow embedding, in Lean 4, of the core of the `sefara` dataset-catalog
library: the `Resource`/`Tags` model (`sefara/resource.py`), the
`ResourceCollection` query operations (`sefara/resource_collection.py`), the
hook dispatch helpers (`sefara/hooks.py`, `sefara/util.py`), the JSON
round-trip (`sefara/loading.py`) and the row generation of the `select`
command (`sefara/commands/select.py`).

Python values that can appear as resource attributes (strings, booleans,
null, numbers, lists, mappings) are modelled by the inductive type `Value`;
machine-level details (floating point, Unicode word characters beyond ASCII)
are outside the claims considered here and numbers are modelled as integers.
Python exceptions are modelled as `Except` with a `String` message payload.
-/

namespace Sefara

mutual

/-- A JSON-like Python value: the attribute values the sefara data model
supports (string, boolean, null, number, ordered list, nested mapping).
Numbers are modelled as integers; lists and mappings use the mutual types
`ValueList` and `FieldList` so that equality stays structurally decidable. -/
inductive Value where
  | vnull : Value
  | vbool : Bool → Value
  | vint : Int → Value
  | vstr : String → Value
  | vlist : ValueList → Value
  | vobj : FieldList → Value
deriving DecidableEq

/-- A list of `Value`s (a Python list). -/
inductive ValueList where
  | nil : ValueList
  | cons : Value → ValueList → ValueList
deriving DecidableEq

/-- An ordered string-keyed mapping of `Value`s (a Python dict). -/
inductive FieldList where
  | nil : FieldList
  | cons : String → Value → FieldList → FieldList
deriving DecidableEq

end

/-- Whether a `ValueList` is empty. -/
def ValueList.isNil : ValueList → Bool
  | .nil => true
  | .cons _ _ => false

/-- Whether a `FieldList` is empty. -/
def FieldList.isNil : FieldList → Bool
  | .nil => true
  | .cons _ _ _ => false

/-- Python truthiness (`bool(x)`) on the modelled values: `None`, `False`,
`0`, `""`, `[]` and `{}` are falsy, everything else truthy. -/
def truthy : Value → Bool
  | .vnull => false
  | .vbool b => b
  | .vint n => n != 0
  | .vstr s => s ≠ ""
  | .vlist xs => !xs.isNil
  | .vobj fs => !fs.isNil

/-- A `Resource` (`sefara/resource.py`): a named record with a tag set and an
ordered mapping of further attributes.  The special attributes `name` and
`tags` are held in their own fields; `attrs` holds the remaining attributes
in insertion order.  The `Tags` set is modelled as the list of its elements
(Python set semantics are recovered through membership; list equality is used
only under `Nodup` hypotheses). -/
structure Res where
  name : String
  tags : List String
  attrs : List (String × Value)
deriving DecidableEq

/-! ## Tag validation (`check_valid_tag`, `Tags.__init__`) -/

/-- A Python `\w` word character, over ASCII: letter, digit or underscore. -/
def isWordChar (c : Char) : Bool :=
  c.isAlpha || c.isDigit || c = '_'

/-- The regex `^[\w][\w-]*$` from `check_valid_tag`, over ASCII strings:
nonempty, first character a word character, remaining characters word
characters or hyphens. -/
def matchesTagRegex (s : String) : Bool :=
  match s.toList with
  | [] => false
  | c :: cs => isWordChar c && cs.all (fun d => isWordChar d || d = '-')

/-- The attribute names in `vars(Tags)` — the class dictionary of the `Tags`
class itself: its methods (`__init__`, `to_plain_types`, `__getattr__`,
`__repr__`) together with the implicit class-body entries Python adds
(`__module__`, `__qualname__`, `__doc__`, `__dict__`, `__weakref__`).
`check_valid_tag` tests membership in exactly this dictionary. -/
def varsTags : List String :=
  ["__module__", "__qualname__", "__doc__", "__init__", "to_plain_types",
   "__getattr__", "__repr__", "__dict__", "__weakref__"]

/-- The public method names of Python's built-in `set` type (the "underlying
set-capability" the specification refers to).  These are *inherited* by
`Tags` and therefore do **not** appear in `vars(Tags)`. -/
def setMethodNames : List String :=
  ["add", "clear", "copy", "difference", "difference_update", "discard",
   "intersection", "intersection_update", "isdisjoint", "issubset",
   "issuperset", "pop", "remove", "symmetric_difference",
   "symmetric_difference_update", "union", "update"]

/-- `check_valid_tag` (`sefara/resource.py`): reject the tag if it is a key
of `vars(Tags)`, then reject it if it fails the regex `^[\w][\w-]*$`;
otherwise accept.  Errors are `ValueError`s, modelled as messages. -/
def checkValidTag (tag : String) : Except String Unit :=
  if tag ∈ varsTags then
    .error ("Invalid tag (may not be a method on set objects): " ++ tag)
  else if matchesTagRegex tag = false then
    .error ("Invalid tag: " ++ tag)
  else
    .ok ()

/-- `Tags.__init__`: validate every tag with `check_valid_tag`, then build
the set (modelled as the given list of elements). -/
def mkTags (tags : List String) : Except String (List String) :=
  match tags.mapM checkValidTag with
  | .ok _ => .ok tags
  | .error e => .error e

/-- Modelled from the spec's words (for comparison with the code): a tag is
valid when it matches `^[A-Za-z0-9_][A-Za-z0-9_-]*$` and "does not collide
with a method name of the underlying set type". -/
def specValidTag (tag : String) : Bool :=
  matchesTagRegex tag && !(setMethodNames.contains tag)

/-- `isOk` on `Except`, as a Boolean. -/
def isOkE {ε α : Type} : Except ε α → Bool
  | .ok _ => true
  | .error _ => false

/-! ## Expression evaluation (`Resource.evaluate`)

A string expression is modelled semantically: running it on a resource
produces the list of values passed to the `on_error` helper during the
evaluation (in call order) and either the expression's value or the Python
exception it raised.  A callable expression is a plain function of the
resource; it has no access to `on_error`. -/

/-- A string expression: its source text plus its behaviour on a resource
(the `on_error` calls it makes, and its result or raised exception). -/
structure StrExpr where
  text : String
  run : Res → List Value × Except String Value

/-- An expression as accepted by `Resource.evaluate`: either a string
expression or a callable (with a display text standing for `str(f)`). -/
inductive Expr where
  | str : StrExpr → Expr
  | call : String → (Res → Except String Value) → Expr

/-- The error raised by `Resource.evaluate` when evaluation fails with no
fallback armed: the code re-raises a `ValueError` whose message contains the
original error, the expression text and the string rendering of the resource
(which contains its name). -/
structure EvaluationError where
  expression : String
  resourceName : String
  wrapped : String
deriving DecidableEq

/-- `Resource.evaluate` (`sefara/resource.py`).  `errorValue` models the
optional `error_value` argument; `none` stands for the `Resource.RAISE`
sentinel.  The error box starts at `errorValue`; each `on_error` call
overwrites it; if evaluation raises, the box is returned unless it still
holds the sentinel, in which case an `EvaluationError` wrapping the original
error is raised. -/
def evaluate (e : Expr) (errorValue : Option Value) (r : Res) :
    Except EvaluationError Value :=
  match e with
  | .str se =>
    let (calls, res) := se.run r
    let box : Option Value :=
      match calls.getLast? with
      | some v => some v
      | none => errorValue
    match res with
    | .ok v => .ok v
    | .error pe =>
      match box with
      | some v => .ok v
      | none => .error ⟨se.text, r.name, pe⟩
  | .call t f =>
    match f r with
    | .ok v => .ok v
    | .error pe =>
      match errorValue with
      | some v => .ok v
      | none => .error ⟨t, r.name, pe⟩

/-- A string expression makes no `on_error` calls on any resource (the
\"side-effect-free\" expressions of the chained-filter property). -/
def noOnError (e : StrExpr) : Prop :=
  ∀ r, (e.run r).1 = []

/-- Modelled from Python semantics of `X and Y`: evaluate `X`; if it raises,
the conjunction raises; if its value is falsy it is the conjunction's value;
otherwise evaluate `Y` and use its outcome.  `on_error` calls of both sides
accumulate in order. -/
def andRun (r1 r2 : Res → List Value × Except String Value) (r : Res) :
    List Value × Except String Value :=
  let (c1, v1) := r1 r
  match v1 with
  | .error e => (c1, .error e)
  | .ok v =>
    if truthy v then
      let (c2, v2) := r2 r
      (c1 ++ c2, v2)
    else (c1, .ok v)

/-- The string expression `"(e1) and (e2)"`. -/
def andE (e1 e2 : StrExpr) : StrExpr :=
  ⟨"(" ++ e1.text ++ ") and (" ++ e2.text ++ ")", andRun e1.run e2.run⟩

/-! ## Resource collections (`sefara/resource_collection.py`)

A `ResourceCollection` holds its resources in an `OrderedDict` keyed by
name; the key under which a resource is stored can go stale when a hook
renames the resource in place.  The ordered dictionary is modelled as an
association list. -/

/-- `OrderedDict` insertion: overwrite in place if the key is present,
otherwise append at the end. -/
def odInsert {α : Type} (m : List (String × α)) (k : String) (v : α) :
    List (String × α) :=
  if m.any (fun p => p.1 = k) then
    m.map (fun p => if p.1 = k then (k, v) else p)
  else m ++ [(k, v)]

/-- `OrderedDict((k, v) for ...)`: fold the pairs through `odInsert`. -/
def odOfPairs {α : Type} (ps : List (String × α)) : List (String × α) :=
  ps.foldl (fun m p => odInsert m p.1 p.2) []

/-- Association-list lookup (`dict[k]`, with `none` for `KeyError`). -/
def lookupA {α : Type} (m : List (String × α)) (k : String) : Option α :=
  (m.find? (fun p => p.1 = k)).map Prod.snd

/-- A `ResourceCollection`: the name-keyed ordered dictionary of resources
and the provenance filename. -/
structure RC where
  resources : List (String × Res)
  filename : String

/-- Iteration order of a collection: its dictionary's values. -/
def RC.values (rc : RC) : List Res :=
  rc.resources.map Prod.snd

/-- `ResourceCollection.__init__` on a list of resources: build the ordered
dictionary keyed by each resource's (current) name. -/
def mkRC (rs : List Res) (filename : String) : RC :=
  ⟨odOfPairs (rs.map (fun r => (r.name, r))), filename⟩

/-- The dictionary rebuild in `__getitem__`:
`OrderedDict((x.name, x) for x in self)`. -/
def rebuildIndex (rc : RC) : List (String × Res) :=
  odOfPairs (rc.values.map (fun r => (r.name, r)))

/-- `ResourceCollection.__getitem__` with a string key: look the key up in
the cached dictionary; on a miss, or when the found resource's current name
no longer equals the key, rebuild the dictionary from current names and look
up again.  Returns the result (`none` models `KeyError`) together with the
collection's updated state. -/
def RC.getItem (rc : RC) (k : String) : Option Res × RC :=
  match lookupA rc.resources k with
  | some r =>
    if r.name = k then (some r, rc)
    else
      let m := rebuildIndex rc
      (lookupA m k, { rc with resources := m })
  | none =>
    let m := rebuildIndex rc
    (lookupA m k, { rc with resources := m })

/-- The list comprehension in `ResourceCollection.filter`: evaluate the
expression on each resource in order (the first raised `EvaluationError`
aborts) and keep the resources whose value is truthy, in order. -/
def filterEvList {ε : Type} (ev : Res → Except ε Value) :
    List Res → Except ε (List Res)
  | [] => .ok []
  | r :: rs =>
    match ev r with
    | .error e => .error e
    | .ok v =>
      match filterEvList ev rs with
      | .error e => .error e
      | .ok rest => .ok (if truthy v then r :: rest else rest)

/-- `ResourceCollection.filter`: build a new collection, with the same
filename, from the resources on which the expression (evaluated with the
default `RAISE` error value) is truthy. -/
def RC.filter (rc : RC) (e : Expr) : Except EvaluationError RC :=
  (filterEvList (fun r => evaluate e none r) rc.values).map
    (fun l => mkRC l rc.filename)

/-! ## Row generation of the `select` command
(`generate_rows` in `sefara/commands/select.py`)

A field is a labelled expression together with its output extractor; the
extractor receives `none` when evaluation of the field failed (the loop
variable `value` is still `None`).  The two Booleans model the
`--stop-on-error` and `--skip-errors` flags; the spec's
`onError = raise / skip / none` are `(true, _)`, `(false, true)` and
`(false, false)` respectively. -/

/-- One `--field` argument: `(extractor, name, expression)`. -/
structure Field where
  label : String
  extractor : Option Value → Value
  expr : Expr

/-- Evaluation of a field on a resource: `resource.evaluate(expression)`
with the default (`RAISE`) error value. -/
def fieldEval (f : Field) (r : Res) : Except EvaluationError Value :=
  evaluate f.expr none r

/-- The inner loop of `generate_rows` for one resource: build its row of
cells.  `.ok none` models the `break` of skip-errors mode (row dropped);
`.error` models re-raising under stop-on-error. -/
def rowCells (stopOnError skipErrors : Bool) (r : Res) :
    List Field → Except EvaluationError (Option (List Value))
  | [] => .ok (some [])
  | f :: fs =>
    match fieldEval f r with
    | .ok v =>
      match rowCells stopOnError skipErrors r fs with
      | .ok (some cells) => .ok (some (f.extractor (some v) :: cells))
      | .ok none => .ok none
      | .error e => .error e
    | .error e =>
      if stopOnError then .error e
      else if skipErrors then .ok none
      else
        match rowCells stopOnError skipErrors r fs with
        | .ok (some cells) => .ok (some (f.extractor none :: cells))
        | .ok none => .ok none
        | .error e2 => .error e2

/-- `generate_rows`: one row per resource in collection order; a dropped row
(skip-errors) contributes nothing; a raised error aborts the generator. -/
def generateRows (stopOnError skipErrors : Bool) (fields : List Field) :
    List Res → Except EvaluationError (List (List Value))
  | [] => .ok []
  | r :: rs =>
    match rowCells stopOnError skipErrors r fields with
    | .error e => .error e
    | .ok cOpt =>
      match generateRows stopOnError skipErrors fields rs with
      | .error e => .error e
      | .ok rest =>
        .ok (match cOpt with
             | some cells => cells :: rest
             | none => rest)

/-- The row a resource contributes when no error aborts it: each field's
extractor applied to the evaluation result (`none` for a failed cell). -/
def rowOf (fields : List Field) (r : Res) : List Value :=
  fields.map (fun f => f.extractor (fieldEval f r).toOption)

/-- Whether some field of the row fails on the resource. -/
def rowFails (fields : List Field) (r : Res) : Bool :=
  fields.any (fun f => !(isOkE (fieldEval f r)))

/-- The rows surviving skip-errors mode: resources on which every field
evaluates successfully, in order. -/
def skipRows (fields : List Field) (rs : List Res) : List (List Value) :=
  rs.filterMap
    (fun r => if rowFails fields r then none else some (rowOf fields r))

/-- The first failing field's error on one resource, in field order. -/
def firstRowFailure (fields : List Field) (r : Res) :
    Option EvaluationError :=
  fields.findSome?
    (fun f =>
      match fieldEval f r with
      | .error e => some e
      | .ok _ => none)

/-- The first failure over the whole table, resource-major then
field-minor: the error stop-on-error mode propagates. -/
def firstFailure (fields : List Field) : List Res → Option EvaluationError
  | [] => none
  | r :: rs =>
    match firstRowFailure fields r with
    | some e => some e
    | none => firstFailure fields rs

/-! ## The checker aggregator (`check` in `sefara/hooks.py`)

Each checker's output is a finite sequence of `(resource, attempted,
problem)` verdicts.  The aggregator zips the collection with all checker
outputs (Python's `zip`), verifies per step that every checker reported the
expected resource, and yields one report row per step.  As a generator it
yields rows until it stops or raises, so its behaviour is modelled as the
list of yielded rows together with the alignment error, if any, that ends
the iteration. -/

/-- One checker verdict: `(resource, attempted, problem)`. -/
structure Verdict where
  res : Res
  attempted : Bool
  problem : Option String
deriving DecidableEq

/-- The data of the `ValueError` raised on misalignment: the offending
checker's index and the two resources involved. -/
structure AlignErr where
  idx : Nat
  got : Res
  expected : Res
deriving DecidableEq

/-- One yielded report row: the resource and, per checker, its
`(checker label, attempted, problem)` triple. -/
abbrev ReportRow := Res × List (String × Bool × Option String)

/-- The inner loop of `check` over one zipped row: walk the checkers'
verdicts with their index; on the first verdict whose resource differs from
the expected one, raise; otherwise collect the labelled triples. -/
def rowCheck (labels : List String) (expected : Res) :
    Nat → List Verdict → Except AlignErr (List (String × Bool × Option String))
  | _, [] => .ok []
  | i, v :: vs =>
    if v.res = expected then
      (rowCheck labels expected (i + 1) vs).map
        (fun rest => (labels.getD i "", v.attempted, v.problem) :: rest)
    else .error ⟨i, v.res, expected⟩

/-- One step of `zip(collection, *generators)` on the generator side: the
head verdict of every checker, and the tails — or `none` when some checker
is exhausted, which stops the zip. -/
def allHeads : List (List Verdict) → Option (List Verdict × List (List Verdict))
  | [] => some ([], [])
  | [] :: _ => none
  | (v :: vs) :: gs =>
    match allHeads gs with
    | none => none
    | some (hs, ts) => some (v :: hs, vs :: ts)

/-- The generator body of `check`: walk the collection in lockstep with all
checker outputs; stop silently when the collection or any checker output is
exhausted; raise on the first misaligned verdict.  Returns the yielded rows
and the terminating alignment error, if any. -/
def checkRows (labels : List String) :
    List Res → List (List Verdict) → List ReportRow × Option AlignErr
  | [], _ => ([], none)
  | r :: rs, gens =>
    match allHeads gens with
    | none => ([], none)
    | some (heads, tails) =>
      match rowCheck labels r 0 heads with
      | .error e => ([], some e)
      | .ok tuples =>
        let (rest, err) := checkRows labels rs tails
        ((r, tuples) :: rest, err)

/-- `check` raises `NoCheckers` when the checker list is empty, before any
zipping happens; otherwise it behaves as `checkRows`. -/
def checkAggregate (labels : List String) (rs : List Res)
    (gens : List (List Verdict)) :
    Except Unit (List ReportRow × Option AlignErr) :=
  if gens.isEmpty then .error () else .ok (checkRows labels rs gens)

/-- Reference description of one row's misalignment: the least checker
index whose verdict names a resource different from the expected one. -/
def rowMismatch (expected : Res) : List Verdict → Option AlignErr
  | [] => none
  | v :: vs =>
    if v.res = expected then
      (rowMismatch expected vs).map (fun a => ⟨a.idx + 1, a.got, a.expected⟩)
    else some ⟨0, v.res, expected⟩

/-- Reference description of one row's labelled triples, starting at a
given checker index. -/
def rowTuples (labels : List String) :
    Nat → List Verdict → List (String × Bool × Option String)
  | _, [] => []
  | i, v :: vs =>
    (labels.getD i "", v.attempted, v.problem) :: rowTuples labels (i + 1) vs

/-- Reference description of the zipped rows: pair each resource with the
checkers' verdicts at its position, up to the shortest sequence. -/
def zipRows : List Res → List (List Verdict) → List (Res × List Verdict)
  | [], _ => []
  | r :: rs, gens =>
    match allHeads gens with
    | none => []
    | some (heads, tails) => (r, heads) :: zipRows rs tails

/-- Reference description of the aggregator's behaviour: of the zipped rows
(truncated to the shortest input), the rows before the first misaligned one
are yielded as reports, and the first misaligned row, if any, produces the
alignment error for its least offending checker index. -/
def specCheck (labels : List String) (rs : List Res)
    (gens : List (List Verdict)) : List ReportRow × Option AlignErr :=
  let rows := zipRows rs gens
  let good := rows.takeWhile (fun p => (rowMismatch p.1 p.2).isNone)
  let bad := rows.dropWhile (fun p => (rowMismatch p.1 p.2).isNone)
  (good.map (fun p => (p.1, rowTuples labels 0 p.2)),
   match bad.head? with
   | none => none
   | some p => rowMismatch p.1 p.2)

/-! ## Hook dispatch working directory (`exec_in_directory` in
`sefara/util.py`)

The process working directory is explicit state: the hook body is a
function from the working directory it starts in to its outcome and the
working directory it leaves behind (arbitrary Python code may itself change
directories). -/

/-- `os.path.dirname`, POSIX flavour: the part of the path before the last
slash, with trailing slashes stripped unless the result is all slashes;
a path with no slash has dirname `""`. -/
def pyDirname (p : String) : String :=
  let rec beforeLastSlash : List Char → Option (List Char)
    | [] => none
    | c :: cs =>
      match beforeLastSlash cs with
      | some tail => some (c :: tail)
      | none => if c = '/' then some [] else none
  match beforeLastSlash p.toList with
  | none => ""
  | some head =>
    let head0 := head ++ ['/']
    let stripped := (head0.reverse.dropWhile (fun c => c = '/')).reverse
    if stripped.isEmpty then String.mk head0 else String.mk stripped

/-- `exec_in_directory` (`sefara/util.py`): when the filename has a
non-empty dirname, the working directory is switched to it, the code body
runs there, and a `finally` block restores the old working directory on
both the success and the raise path; otherwise the body just runs in the
current working directory.  `body cwd` returns the executed code's outcome
and the working directory it leaves behind. -/
def execInDirectory {α : Type} (cwd0 : String) (filename : Option String)
    (body : String → Except String α × String) : Except String α × String :=
  let directory := match filename with
    | some f => pyDirname f
    | none => ""
  if directory = "" then body cwd0
  else ((body directory).1, cwd0)

/-! ## Serialization round trip (`to_plain_types` in `sefara/resource.py`
and `resource_collection.py`; the JSON branch of `loads` in
`sefara/loading.py`)

`json.dumps` followed by `json.loads` (with `object_pairs_hook=OrderedDict`)
is the identity on the plain-type domain modelled by `Value`, so the JSON
text itself is not modelled: the round trip goes from the plain-types form
straight back through `Resource.__init__`. -/

/-- The `tags` attribute as stored in plain types: `list(self.tags)`. -/
def strTagList : List String → ValueList
  | [] => .nil
  | s :: ss => .cons (.vstr s) (strTagList ss)

/-- The coercion `Tags(fields.get('tags', []))` applied to a plain value:
only a list of strings is accepted (Python would iterate other values;
resources in the modelled data model store tags as string lists). -/
def asTagList : Value → Except String (List String)
  | .vlist xs =>
    let rec go : ValueList → Except String (List String)
      | .nil => .ok []
      | .cons (.vstr s) tl => (go tl).map (fun l => s :: l)
      | .cons _ _ => .error "tag is not a string"
    go xs
  | _ => .error "tags is not iterable as strings"

/-- `Resource.to_plain_types`: an ordered mapping with `tags` first (as a
list of strings), then every other attribute except `name` and `tags` in
stored order. -/
def resourceToPlainTypes (r : Res) : List (String × Value) :=
  ("tags", .vlist (strTagList r.tags)) ::
    r.attrs.filter (fun p => (p.1 != "name") && (p.1 != "tags"))

/-- `ResourceCollection.to_plain_types`: an ordered mapping from each
resource's name to its plain form. -/
def collectionToPlainTypes (rc : RC) : List (String × List (String × Value)) :=
  odOfPairs (rc.values.map (fun r => (r.name, resourceToPlainTypes r)))

/-- `Resource.__init__` with an explicit name: coerce the `tags` field
(defaulting to the empty list) through `Tags`, validating every tag; store
the remaining attributes.  The auto-naming counter is not modelled: every
construction in the claims considered here supplies a name. -/
def mkResource (name : String) (fields : List (String × Value)) :
    Except String Res := do
  let tagsVal := (lookupA fields "tags").getD (.vlist .nil)
  let tagStrs ← asTagList tagsVal
  let _ ← mkTags tagStrs
  .ok ⟨name, tagStrs,
    fields.filter (fun p => (p.1 != "name") && (p.1 != "tags"))⟩

/-- The JSON branch of `loads` (`sefara/loading.py`): each top-level key is
a resource name, its value the attribute mapping; build a `Resource` from
each pair and collect them into a `ResourceCollection`.  Environment
transforms are not run (the environment transform list is modelled as
empty). -/
def loadsJson (pairs : List (String × List (String × Value)))
    (filename : String) : Except String RC := do
  let resources ← pairs.mapM (fun p => mkResource p.1 p.2)
  .ok (mkRC resources filename)

/-! ## Attribute-style membership lookup on `Tags`
(`Tags.__getattr__` in `sefara/resource.py`)

Python's `__getattr__` is consulted only when normal attribute lookup
fails, so names found on the class hierarchy of a `Tags` instance —
`vars(Tags)`, the inherited `set` methods, and the special attributes
inherited from `set`/`object` — resolve to the class attribute instead of a
membership test. -/

/-- Special (dunder) attribute names a `Tags` instance inherits from `set`
and `object`, beyond `vars(Tags)`: these are also found by normal attribute
lookup. -/
def inheritedAttrNames : List String :=
  ["__class__", "__hash__", "__eq__", "__ne__", "__lt__", "__le__", "__gt__",
   "__ge__", "__contains__", "__iter__", "__len__", "__and__", "__or__",
   "__sub__", "__xor__", "__rand__", "__ror__", "__rsub__", "__rxor__",
   "__iand__", "__ior__", "__isub__", "__ixor__", "__new__", "__reduce__",
   "__reduce_ex__", "__sizeof__", "__str__", "__format__", "__dir__",
   "__delattr__", "__setattr__", "__getattribute__", "__init_subclass__",
   "__subclasshook__"]

/-- Every attribute name found on a `Tags` instance by normal Python
attribute lookup (before `__getattr__` is consulted). -/
def tagsClassAttrNames : List String :=
  varsTags ++ setMethodNames ++ inheritedAttrNames

/-- The result of `getattr` on a `Tags` instance: either an attribute of
the class hierarchy (a bound method or descriptor — truthy but not a
Boolean), or the membership Boolean computed by `Tags.__getattr__`. -/
inductive AttrResult where
  | classAttr : String → AttrResult
  | membership : Bool → AttrResult
deriving DecidableEq

/-- `getattr` on a `Tags` instance with elements `elems`: normal lookup
finds class-hierarchy attributes; otherwise `Tags.__getattr__` returns
`attribute in self`. -/
def tagsGetattr (elems : List String) (attr : String) : AttrResult :=
  if attr ∈ tagsClassAttrNames then .classAttr attr
  else .membership (elems.contains attr)

/-! ## Shared `Except` simp lemmas -/

@[simp] theorem exceptBind_ok {ε α β : Type} (a : α) (f : α → Except ε β) :
    (Except.ok a >>= f : Except ε β) = f a := rfl

@[simp] theorem exceptBind_error {ε α β : Type} (e : ε) (f : α → Except ε β) :
    (Except.error e >>= f : Except ε β) = .error e := rfl

@[simp] theorem exceptMap_ok {ε α β : Type} (a : α) (f : α → β) :
    (Except.map f (Except.ok a) : Except ε β) = .ok (f a) := rfl

@[simp] theorem exceptMap_error {ε α β : Type} (e : ε) (f : α → β) :
    (Except.map f (Except.error e) : Except ε β) = .error e := rfl

@[simp] theorem isOkE_ok {ε α : Type} (a : α) :
    isOkE (Except.ok a : Except ε α) = true := rfl

@[simp] theorem isOkE_error {ε α : Type} (e : ε) :
    isOkE (Except.error e : Except ε α) = false := rfl

/-! ## Claim C3: the tag validation rule -/

/-- C3, counterexample: the claim states that constructing a `Tags` set
containing `T` succeeds exactly when `T` matches the tag regex and does not
collide with a method name of the underlying `set` type.  The tag
`"union"` matches the regex and *is* a `set` method name, so the claim
requires construction to fail — but `check_valid_tag` only rejects keys of
`vars(Tags)`, which does not contain the inherited `set` methods, so
construction succeeds. -/
theorem tag_validation_union_counterexample :
    isOkE (mkTags ["union"]) = true ∧ specValidTag "union" = false := by
  decide

/-- C3 (amended): constructing a `Tags` set (and hence a `Resource`)
containing the tag `T` succeeds exactly when `T` matches the regex
`^[A-Za-z0-9_][A-Za-z0-9_-]*$` and is not a key of `vars(Tags)` — the
attributes defined in the `Tags` class body itself (such as
`to_plain_types` or `__getattr__`), not the method names inherited from the
underlying `set` type. -/
theorem tag_validation_rule (t : String) :
    (isOkE (mkTags [t]) = true ↔ matchesTagRegex t = true ∧ t ∉ varsTags)
    ∧ (isOkE (mkResource "r" [("tags", .vlist (.cons (.vstr t) .nil))]) = true
        ↔ matchesTagRegex t = true ∧ t ∉ varsTags) := by
  have hsingle : mkTags [t] =
      (match checkValidTag t with
       | .ok _ => .ok [t]
       | .error e => .error e) := by
    unfold mkTags
    cases h : checkValidTag t <;> simp [List.mapM, List.mapM.loop, h]
  have hcvt :
      isOkE (checkValidTag t) = true ↔ matchesTagRegex t = true ∧ t ∉ varsTags := by
    unfold checkValidTag
    by_cases hv : t ∈ varsTags
    · simp [hv]
    · by_cases hr : matchesTagRegex t = true
      · simp [hv, hr]
      · simp [hv, hr]
  constructor
  · rw [hsingle]
    cases h : checkValidTag t
    · simpa [h] using hcvt
    · simpa [h] using hcvt
  · have hres : mkResource "r" [("tags", .vlist (.cons (.vstr t) .nil))] =
        (match checkValidTag t with
         | .ok _ => .ok ⟨"r", [t], []⟩
         | .error e => .error e) := by
      unfold mkResource
      cases h : checkValidTag t <;>
        simp [lookupA, List.find?, asTagList, asTagList.go, hsingle, h, bind,
          Except.bind, List.filter]
    rw [hres]
    cases h : checkValidTag t
    · simpa [h] using hcvt
    · simpa [h] using hcvt

/-! ## Claim C6: attribute-style membership lookup -/

/-- C6, counterexample: `"union"` is accepted by the tag validator, yet
attribute-style lookup on a `Tags` set containing it does not return
`True` (normal lookup finds the inherited `set.union` method first), and on
a `Tags` set not containing it does not return `False`. -/
theorem tags_attr_lookup_union_counterexample :
    isOkE (mkTags ["union"]) = true
    ∧ tagsGetattr ["union"] "union" ≠ .membership true
    ∧ tagsGetattr [] "union" ≠ .membership false := by
  decide

/-- C6 (amended): for every string `T` that is not an attribute of the
`Tags` class hierarchy (in particular every validator-accepted tag other
than the inherited `set`/`object` attributes), attribute-style lookup on a
`Tags` set returns `True` exactly when `T` is a member, and `False` — not
an error — for any such string not in the set; a string that names a
class-hierarchy attribute (such as `"union"`) instead resolves to that
attribute. -/
theorem tags_attr_lookup (elems : List String) (attr : String)
    (h : attr ∉ tagsClassAttrNames) :
    (tagsGetattr elems attr = .membership true ↔ attr ∈ elems)
    ∧ (attr ∉ elems → tagsGetattr elems attr = .membership false) := by
  constructor
  · unfold tagsGetattr
    simp only [if_neg h, AttrResult.membership.injEq]
    exact ⟨fun hc => by simpa using hc, fun hm => by simpa using hm⟩
  · intro hm
    unfold tagsGetattr
    simp only [if_neg h, AttrResult.membership.injEq]
    simpa using hm

/-- C6 witness: the tag `"gamma"` is not shadowed by any class attribute;
on the set `{alpha, gamma}` lookup returns `True`, and `"delta"` (absent)
returns `False`. -/
theorem tags_attr_lookup_witness :
    tagsGetattr ["alpha", "gamma"] "gamma" = .membership true
    ∧ tagsGetattr ["alpha", "gamma"] "delta" = .membership false :=
  ⟨(tags_attr_lookup ["alpha", "gamma"] "gamma" (by decide)).1.mpr (by decide),
   (tags_attr_lookup ["alpha", "gamma"] "delta" (by decide)).2 (by decide)⟩

/-! ## Claim C4: the `on_error` fallback of `Resource.evaluate` -/

/-- C4: with no `error_value` argument (the `RAISE` sentinel), (1) if the
expression called `on_error` (last recorded value `v`) and then raised,
`evaluate` returns `v`; (2) if evaluation succeeds, any recorded fallback is
discarded and the expression's value is returned; (3) if evaluation fails
with no fallback recorded, `evaluate` fails with an `EvaluationError` that
wraps the original error and carries the expression text and the resource's
name. -/
theorem evaluate_on_error_fallback (e : StrExpr) (r : Res) :
    (∀ calls pe v, e.run r = (calls, .error pe) → calls.getLast? = some v →
      evaluate (.str e) none r = .ok v)
    ∧ (∀ calls v, e.run r = (calls, .ok v) →
      evaluate (.str e) none r = .ok v)
    ∧ (∀ pe, e.run r = ([], .error pe) →
      evaluate (.str e) none r = .error ⟨e.text, r.name, pe⟩) := by
  refine ⟨?_, ?_, ?_⟩
  · intro calls pe v hrun hlast
    simp [evaluate, hrun, hlast]
  · intro calls v hrun
    simp [evaluate, hrun]
  · intro pe hrun
    simp [evaluate, hrun]

/-- A concrete resource lacking the attribute `name_non_existent`. -/
def dataset1 : Res := ⟨"dataset1", ["alpha", "beta"], []⟩

/-- The behaviour of the expression
`"on_error(-17) or name_non_existent"` on a resource without that
attribute: `on_error` records `-17`, then the name lookup raises. -/
def onErrorExpr : StrExpr :=
  ⟨"on_error(-17) or name_non_existent",
   fun _ => ([.vint (-17)],
     .error "NameError: name name_non_existent is not defined")⟩

/-- C4 witness: the spec's concrete scenario — evaluating
`on_error(-17) or name_non_existent` on a resource lacking the attribute
returns `-17`. -/
theorem evaluate_on_error_fallback_witness :
    evaluate (.str onErrorExpr) none dataset1 = .ok (.vint (-17)) :=
  (evaluate_on_error_fallback onErrorExpr dataset1).1
    [.vint (-17)] "NameError: name name_non_existent is not defined"
    (.vint (-17)) rfl rfl

/-! ## Claim C10: the explicit `error_value` argument -/

/-- C10: with an explicitly supplied `error_value` `V`, (1) a callable
expression that raises makes `evaluate` return `V`; (2) a string expression
that raises without calling `on_error` makes `evaluate` return `V`; (3) an
`on_error(W)` call during string evaluation overrides the supplied `V`:
on failure, `W` is returned instead. -/
theorem evaluate_error_value_argument (r : Res) (V : Value) :
    (∀ (t : String) (f : Res → Except String Value) pe, f r = .error pe →
      evaluate (.call t f) (some V) r = .ok V)
    ∧ (∀ (e : StrExpr) pe, e.run r = ([], .error pe) →
      evaluate (.str e) (some V) r = .ok V)
    ∧ (∀ (e : StrExpr) calls pe W, e.run r = (calls, .error pe) →
      calls.getLast? = some W →
      evaluate (.str e) (some V) r = .ok W) := by
  refine ⟨?_, ?_, ?_⟩
  · intro t f pe hrun
    simp [evaluate, hrun]
  · intro e pe hrun
    simp [evaluate, hrun]
  · intro e calls pe W hrun hlast
    simp [evaluate, hrun, hlast]

/-- A failing callable expression. -/
def failingCallable : Res → Except String Value :=
  fun _ => .error "IOError: file not found"

/-- C10 witness: a raising callable with `error_value = -1` returns `-1`;
the `on_error(-17)` expression with `error_value = -1` returns `-17`. -/
theorem evaluate_error_value_argument_witness :
    evaluate (.call "<function>" failingCallable) (some (.vint (-1)))
      dataset1 = .ok (.vint (-1))
    ∧ evaluate (.str onErrorExpr) (some (.vint (-1))) dataset1
      = .ok (.vint (-17)) :=
  ⟨(evaluate_error_value_argument dataset1 (.vint (-1))).1 "<function>"
    failingCallable "IOError: file not found" rfl,
   (evaluate_error_value_argument dataset1 (.vint (-1))).2.2 onErrorExpr
    [.vint (-17)] "NameError: name name_non_existent is not defined"
    (.vint (-17)) rfl rfl⟩

/-! ## Claim C9: working-directory switching in hook dispatch -/

/-- C9, counterexample: the claim asserts that for *every* path-based hook
invocation the working directory is restored to its prior value on every
exit path.  For a hook referenced by a bare filename (`"check.py"`,
`os.path.dirname` empty), `exec_in_directory` performs no switch and no
restoration, so a hook body that changes directory and raises leaves the
process in the changed directory. -/
theorem exec_in_directory_bare_filename_counterexample :
    (execInDirectory "/start" (some "check.py")
      (fun _ => ((.error "boom" : Except String Unit), "/elsewhere"))).2
      = "/elsewhere"
    ∧ "/elsewhere" ≠ "/start" := by
  constructor
  · rfl
  · decide

/-- C9 (amended): for every hook invocation whose file path has a non-empty
containing directory, the working directory is switched to that directory
for the duration of the executed code and restored to its prior value on
every exit path — including when the hook code raises, and even when the
hook code itself changed directory; a hook referenced by a bare filename is
executed without any switch or restoration. -/
theorem exec_in_directory_restores {α : Type} (cwd0 f : String)
    (body : String → Except String α × String) (h : pyDirname f ≠ "") :
    execInDirectory cwd0 (some f) body = ((body (pyDirname f)).1, cwd0) := by
  simp [execInDirectory, h]

/-- C9 witness: a hook at `hooks/check.py` whose body raises and leaves a
different working directory behind: the result is the body's error and the
original working directory. -/
theorem exec_in_directory_restores_witness :
    execInDirectory "/start" (some "hooks/check.py")
      (fun cwd => ((.error "boom" : Except String Unit), cwd ++ "/sub"))
      = (.error "boom", "/start") := by
  rw [exec_in_directory_restores "/start" "hooks/check.py"
    (fun cwd => ((.error "boom" : Except String Unit), cwd ++ "/sub"))
    (by decide)]

/-! ## Ordered-dictionary lemmas -/

theorem odInsert_of_not_mem {α : Type} (m : List (String × α)) (k : String)
    (v : α) (h : ∀ p ∈ m, p.1 ≠ k) : odInsert m k v = m ++ [(k, v)] := by
  unfold odInsert
  rw [if_neg]
  simp only [List.any_eq_true, decide_eq_true_eq, not_exists]
  intro p
  exact fun hp => h p hp.1 hp.2

theorem odOfPairs_go {α : Type} (ps : List (String × α)) :
    ∀ m : List (String × α),
    (∀ p ∈ ps, ∀ q ∈ m, q.1 ≠ p.1) → (ps.map Prod.fst).Nodup →
    ps.foldl (fun acc p => odInsert acc p.1 p.2) m = m ++ ps := by
  induction ps with
  | nil => intro m _ _; simp
  | cons p ps ih =>
    intro m hdisj hnd
    simp only [List.map_cons, List.nodup_cons] at hnd
    simp only [List.foldl_cons]
    rw [odInsert_of_not_mem m p.1 p.2
      (fun q hq => hdisj p (List.mem_cons_self _ _) q hq)]
    rw [ih (m ++ [(p.1, p.2)]) ?_ hnd.2]
    · simp
    · intro p' hp' q hq
      rcases List.mem_append.mp hq with hq | hq
      · exact hdisj p' (List.mem_cons_of_mem _ hp') q hq
      · have hq' : q = (p.1, p.2) := by simpa using hq
        subst hq'
        intro he
        exact hnd.1 (he ▸ List.mem_map_of_mem Prod.fst hp')

theorem odOfPairs_eq_self {α : Type} (ps : List (String × α))
    (h : (ps.map Prod.fst).Nodup) : odOfPairs ps = ps := by
  unfold odOfPairs
  simpa using odOfPairs_go ps [] (by simp) h

theorem lookupA_mem {α : Type} (m : List (String × α)) (k : String) (v : α)
    (h : lookupA m k = some v) : v ∈ m.map Prod.snd := by
  unfold lookupA at h
  cases hf : m.find? (fun p => p.1 = k) with
  | none => rw [hf] at h; cases h
  | some p =>
    rw [hf] at h
    cases h
    exact List.mem_map_of_mem _ (List.mem_of_find?_eq_some hf)

theorem lookupA_map_name_of_mem (rs : List Res) (r : Res)
    (hnd : (rs.map Res.name).Nodup) (hr : r ∈ rs) :
    lookupA (rs.map (fun x => (x.name, x))) r.name = some r := by
  induction rs with
  | nil => cases hr
  | cons a rs ih =>
    simp only [List.map_cons, List.nodup_cons] at hnd
    rcases List.mem_cons.mp hr with h | h
    · subst h
      simp [lookupA, List.find?]
    · have hne : ¬(a.name = r.name) := by
        intro he
        exact hnd.1 (he ▸ List.mem_map_of_mem Res.name h)
      have := ih hnd.2 h
      unfold lookupA at this ⊢
      simpa [List.find?, hne] using this

theorem lookupA_map_name_of_not_mem (rs : List Res) (k : String)
    (hk : k ∉ rs.map Res.name) :
    lookupA (rs.map (fun x => (x.name, x))) k = none := by
  induction rs with
  | nil => rfl
  | cons a rs ih =>
    simp only [List.map_cons, List.mem_cons, not_or] at hk
    have hne : ¬(a.name = k) := fun he => hk.1 he.symm
    have := ih hk.2
    unfold lookupA at this ⊢
    simpa [List.find?, hne] using this

/-! ## Claim C5: name lookup after in-place renames -/

/-- C5: for every collection state whose resources currently have distinct
names — regardless of how stale the cached dictionary keys are after hooks
renamed resources in place, and without any notification to the collection —
`__getitem__` succeeds for each resource under its current name, returning
that resource, and raises `KeyError` (modelled as `none`) for any name that
no longer belongs to a resource. -/
theorem getitem_tracks_renames (rc : RC)
    (hnd : (rc.values.map Res.name).Nodup) :
    (∀ r ∈ rc.values, (rc.getItem r.name).1 = some r)
    ∧ (∀ k, k ∉ rc.values.map Res.name → (rc.getItem k).1 = none) := by
  have hkeys : ((rc.values.map (fun x => (x.name, x))).map Prod.fst).Nodup := by
    simpa [List.map_map, Function.comp] using hnd
  have hrebuild : rebuildIndex rc = rc.values.map (fun x => (x.name, x)) := by
    unfold rebuildIndex
    exact odOfPairs_eq_self _ hkeys
  constructor
  · intro r hr
    unfold RC.getItem
    cases hfind : lookupA rc.resources r.name with
    | none =>
      simp only [hfind, hrebuild]
      exact lookupA_map_name_of_mem rc.values r hnd hr
    | some r2 =>
      by_cases hname : r2.name = r.name
      · have hr2 : r2 ∈ rc.values := lookupA_mem _ _ _ hfind
        have : r2 = r :=
          List.inj_on_of_nodup_map hnd hr2 hr hname
        subst this
        simp [hfind, hname]
      · simp only [hfind, if_neg hname, hrebuild]
        exact lookupA_map_name_of_mem rc.values r hnd hr
  · intro k hk
    unfold RC.getItem
    cases hfind : lookupA rc.resources k with
    | none =>
      simp only [hfind, hrebuild]
      exact lookupA_map_name_of_not_mem rc.values k hk
    | some r2 =>
      have hname : ¬(r2.name = k) := by
        intro he
        exact hk (he ▸ List.mem_map_of_mem Res.name (lookupA_mem _ _ _ hfind))
      simp only [hfind, if_neg hname, hrebuild]
      exact lookupA_map_name_of_not_mem rc.values k hk

/-- A collection whose resources a transform renamed in place by prefixing
`"bar-"` to every name: the cached dictionary keys still hold the old
names. -/
def renamedRC : RC :=
  ⟨[("dataset1", ⟨"bar-dataset1", ["alpha", "beta"], []⟩),
    ("dataset2", ⟨"bar-dataset2", ["gamma", "delta", "alpha"], []⟩)],
   "ex1.py"⟩

/-- C5 witness: after the `"bar-"` rename, lookup under the new name
`"bar-dataset1"` returns the renamed resource and lookup under the old name
`"dataset1"` raises `KeyError`. -/
theorem getitem_tracks_renames_witness :
    (renamedRC.getItem "bar-dataset1").1
      = some ⟨"bar-dataset1", ["alpha", "beta"], []⟩
    ∧ (renamedRC.getItem "dataset1").1 = none :=
  ⟨(getitem_tracks_renames renamedRC (by decide)).1
      ⟨"bar-dataset1", ["alpha", "beta"], []⟩ (by decide),
   (getitem_tracks_renames renamedRC (by decide)).2 "dataset1" (by decide)⟩

/-! ## Claim C8: chained filters versus a conjoined filter -/

/-- The exception-level evaluation of the Python conjunction `f and g` on a
resource: evaluate `f`; a raise propagates; a falsy value is the result;
otherwise the result is `g`'s outcome. -/
def andEval {ε : Type} (f g : Res → Except ε Value) (r : Res) :
    Except ε Value :=
  match f r with
  | .error e => .error e
  | .ok v => if truthy v then g r else .ok v

theorem exceptMapError_eq_ok {ε ε' α : Type} (h : ε → ε') (X : Except ε α)
    (a : α) : X.mapError h = .ok a ↔ X = .ok a := by
  cases X <;> simp [Except.mapError]

theorem exceptBind_eq_ok {ε α β : Type} (X : Except ε α)
    (g : α → Except ε β) (b : β) :
    (X >>= g) = .ok b ↔ ∃ a, X = .ok a ∧ g a = .ok b := by
  cases X <;> simp

theorem exceptMap_eq_ok {ε α β : Type} (X : Except ε α) (g : α → β) (b : β) :
    X.map g = .ok b ↔ ∃ a, X = .ok a ∧ g a = b := by
  cases X <;> simp

/-- With no `on_error` calls and no `error_value`, `evaluate` on a string
expression is the expression's own outcome, with a raise wrapped into an
`EvaluationError`. -/
theorem evaluate_noOnError (e : StrExpr) (he : noOnError e) (r : Res) :
    evaluate (.str e) none r
      = ((e.run r).2).mapError (fun pe => ⟨e.text, r.name, pe⟩) := by
  unfold evaluate
  have hcalls := he r
  rcases hrun : e.run r with ⟨calls, res⟩
  rw [hrun] at hcalls
  simp only at hcalls
  subst hcalls
  cases res <;> simp [hrun, Except.mapError]

/-- The exception-level outcome of `andRun` is `andEval` of the two
exception-level outcomes. -/
theorem andRun_snd (f1 f2 : Res → List Value × Except String Value)
    (r : Res) :
    (andRun f1 f2 r).2 = andEval (fun x => (f1 x).2) (fun x => (f2 x).2) r := by
  unfold andRun andEval
  rcases h1 : f1 r with ⟨c1, v1⟩
  cases v1 with
  | error e => simp [h1]
  | ok v =>
    by_cases ht : truthy v
    · rcases h2 : f2 r with ⟨c2, v2⟩
      simp [h1, h2, ht]
    · simp [h1, ht]

/-- `andE` of two `on_error`-free expressions is `on_error`-free. -/
theorem andE_noOnError (e1 e2 : StrExpr) (h1 : noOnError e1)
    (h2 : noOnError e2) : noOnError (andE e1 e2) := by
  intro r
  show (andRun e1.run e2.run r).1 = []
  unfold andRun
  rcases hr1 : e1.run r with ⟨c1, v1⟩
  have hc1 : c1 = [] := by have := h1 r; rw [hr1] at this; exact this
  cases v1 with
  | error e => simpa using hc1
  | ok v =>
    by_cases ht : truthy v
    · rcases hr2 : e2.run r with ⟨c2, v2⟩
      have hc2 : c2 = [] := by have := h2 r; rw [hr2] at this; exact this
      simp [ht, hc1, hc2]
    · simpa [ht] using hc1

/-- Lift a pointwise success-equivalence of evaluators through the filter
comprehension. -/
theorem filterEvList_okIff {ε1 ε2 : Type} (ev1 : Res → Except ε1 Value)
    (ev2 : Res → Except ε2 Value)
    (hok : ∀ r v, ev1 r = .ok v ↔ ev2 r = .ok v) :
    ∀ (l : List Res) (res : List Res),
      filterEvList ev1 l = .ok res ↔ filterEvList ev2 l = .ok res := by
  intro l
  induction l with
  | nil => intro res; simp [filterEvList]
  | cons r l ih =>
    intro res
    cases h1 : ev1 r with
    | error e1 =>
      cases h2 : ev2 r with
      | error e2 => simp [filterEvList, h1, h2]
      | ok v =>
        have := (hok r v).mpr h2
        rw [h1] at this
        cases this
    | ok v =>
      have h2 : ev2 r = .ok v := (hok r v).mp h1
      simp only [filterEvList, h1, h2]
      cases hF1 : filterEvList ev1 l with
      | error e =>
        cases hF2 : filterEvList ev2 l with
        | error e2 => simp
        | ok rest =>
          have := (ih rest).mpr hF2
          rw [hF1] at this
          cases this
      | ok rest =>
        have hF2 : filterEvList ev2 l = .ok rest := (ih rest).mp hF1
        rw [hF2]
        simp

/-- Core list-level equivalence: filtering by `f` then by `g` succeeds with
exactly the rows that filtering by the short-circuit conjunction of `f` and
`g` succeeds with. -/
theorem filterEvList_chain {ε : Type} (f g : Res → Except ε Value) :
    ∀ (l : List Res) (res : List Res),
      (filterEvList f l >>= filterEvList g) = .ok res
        ↔ filterEvList (andEval f g) l = .ok res := by
  intro l
  induction l with
  | nil =>
    intro res
    simp [filterEvList]
  | cons r l ih =>
    intro res
    cases hf : f r with
    | error e =>
      simp [filterEvList, andEval, hf]
    | ok v =>
      by_cases ht : truthy v
      · cases hg : g r with
        | error e =>
          have handE : andEval f g r = .error e := by
            unfold andEval; rw [hf]; simp [ht, hg]
          simp only [filterEvList, hf, handE, if_pos ht]
          cases hF : filterEvList f l with
          | error e1 => simp
          | ok rest1 => simp [filterEvList, hg]
        | ok w =>
          have handE : andEval f g r = .ok w := by
            unfold andEval; rw [hf]; simp [ht, hg]
          simp only [filterEvList, hf, handE, if_pos ht]
          cases hF : filterEvList f l with
          | error e1 =>
            cases hC : filterEvList (andEval f g) l with
            | error e2 => simp
            | ok rest2 =>
              have := (ih rest2).mpr hC
              rw [hF] at this
              simp at this
          | ok rest1 =>
            simp only [exceptBind_ok, filterEvList, hg]
            cases hG : filterEvList g rest1 with
            | error eG =>
              cases hC : filterEvList (andEval f g) l with
              | error e2 => simp
              | ok rest2 =>
                have := (ih rest2).mpr hC
                rw [hF] at this
                simp only [exceptBind_ok] at this
                rw [hG] at this
                cases this
            | ok rest2 =>
              have hC : filterEvList (andEval f g) l = .ok rest2 := by
                refine (ih rest2).mp ?_
                rw [hF]
                simpa using hG
              rw [hC]
      · have handE : andEval f g r = .ok v := by
          unfold andEval; rw [hf]; simp [ht]
        simp only [filterEvList, hf, handE, if_neg ht]
        cases hF : filterEvList f l with
        | error e1 =>
          cases hC : filterEvList (andEval f g) l with
          | error e2 => simp
          | ok rest2 =>
            have := (ih rest2).mpr hC
            rw [hF] at this
            simp at this
        | ok rest1 =>
          simp only [exceptBind_ok]
          cases hC : filterEvList (andEval f g) l with
          | error e2 =>
            constructor
            · intro hLHS
              have : filterEvList (andEval f g) l = .ok res := by
                refine (ih res).mp ?_
                rw [hF]
                simpa using hLHS
              rw [hC] at this
              cases this
            · intro hcontra
              cases hcontra
          | ok rest2 =>
            have hG : filterEvList g rest1 = .ok rest2 := by
              have := (ih rest2).mpr hC
              rw [hF] at this
              simpa using this
            rw [hG]

/-- A successful filter comprehension returns a sublist of its input. -/
theorem filterEvList_sublist {ε : Type} (ev : Res → Except ε Value) :
    ∀ (l res : List Res), filterEvList ev l = .ok res → res.Sublist l := by
  intro l
  induction l with
  | nil =>
    intro res h
    simp [filterEvList] at h
    simp [← h]
  | cons r l ih =>
    intro res h
    cases hev : ev r with
    | error e => rw [filterEvList, hev] at h; cases h
    | ok v =>
      rw [filterEvList, hev] at h
      cases hF : filterEvList ev l with
      | error e => rw [hF] at h; cases h
      | ok rest =>
        rw [hF] at h
        have hres : res = if truthy v then r :: rest else rest := by
          cases h; rfl
        subst hres
        by_cases ht : truthy v
        · simpa [ht] using List.Sublist.cons₂ r (ih rest hF)
        · simpa [ht] using List.Sublist.cons r (ih rest hF)

/-- The values of a collection freshly built from resources with distinct
names are exactly those resources. -/
theorem mkRC_values (rs : List Res) (fn : String)
    (hnd : (rs.map Res.name).Nodup) : (mkRC rs fn).values = rs := by
  unfold mkRC RC.values
  have hkeys : ((rs.map (fun r => (r.name, r))).map Prod.fst).Nodup := by
    simpa [List.map_map, Function.comp] using hnd
  rw [odOfPairs_eq_self _ hkeys, List.map_map]
  have hcomp : (Prod.snd ∘ fun r : Res => (r.name, r)) = id := rfl
  rw [hcomp, List.map_id]

/-- C8: for every collection with distinct resource names and side-effect
free string expressions `e1` and `e2` (no `on_error` calls),
`collection.filter(e1).filter(e2)` yields a collection exactly when
`collection.filter("(e1) and (e2)")` does, and the two results are the same
collection — the same resource subset in the same original order. -/
theorem filter_chain_equiv (rc : RC) (e1 e2 : StrExpr) (out : RC)
    (h1 : noOnError e1) (h2 : noOnError e2)
    (hnd : (rc.values.map Res.name).Nodup) :
    ((rc.filter (.str e1)) >>= fun rc1 => rc1.filter (.str e2)) = .ok out
      ↔ rc.filter (.str (andE e1 e2)) = .ok out := by
  have hokIff1 : ∀ r v,
      evaluate (.str e1) none r = .ok v ↔ (e1.run r).2 = .ok v := by
    intro r v
    rw [evaluate_noOnError e1 h1 r, exceptMapError_eq_ok]
  have hokIff2 : ∀ r v,
      evaluate (.str e2) none r = .ok v ↔ (e2.run r).2 = .ok v := by
    intro r v
    rw [evaluate_noOnError e2 h2 r, exceptMapError_eq_ok]
  have hokIffC : ∀ r v,
      evaluate (.str (andE e1 e2)) none r = .ok v
        ↔ andEval (fun x => (e1.run x).2) (fun x => (e2.run x).2) r = .ok v := by
    intro r v
    rw [evaluate_noOnError _ (andE_noOnError e1 e2 h1 h2) r,
      exceptMapError_eq_ok]
    show (andRun e1.run e2.run r).2 = .ok v ↔ _
    rw [andRun_snd]
  constructor
  · intro h
    rw [exceptBind_eq_ok] at h
    obtain ⟨rc1, hrc1, hrc2⟩ := h
    unfold RC.filter at hrc1
    rw [exceptMap_eq_ok] at hrc1
    obtain ⟨l1, hl1, hmk1⟩ := hrc1
    have hsub1 : l1.Sublist rc.values := filterEvList_sublist _ _ _ hl1
    have hnd1 : (l1.map Res.name).Nodup :=
      List.Nodup.sublist (List.Sublist.map Res.name hsub1) hnd
    subst hmk1
    unfold RC.filter at hrc2
    rw [exceptMap_eq_ok] at hrc2
    obtain ⟨l2, hl2, hmk2⟩ := hrc2
    rw [mkRC_values l1 rc.filename hnd1] at hl2
    have hl1P : filterEvList (fun x => (e1.run x).2) rc.values = .ok l1 :=
      (filterEvList_okIff _ _ hokIff1 rc.values l1).mp hl1
    have hl2P : filterEvList (fun x => (e2.run x).2) l1 = .ok l2 :=
      (filterEvList_okIff _ _ hokIff2 l1 l2).mp hl2
    have hchain : (filterEvList (fun x => (e1.run x).2) rc.values
        >>= filterEvList (fun x => (e2.run x).2)) = .ok l2 := by
      rw [hl1P]; simpa using hl2P
    have hcomb := (filterEvList_chain _ _ rc.values l2).mp hchain
    have hcombE : filterEvList
        (fun r => evaluate (.str (andE e1 e2)) none r) rc.values = .ok l2 :=
      (filterEvList_okIff _ _ hokIffC rc.values l2).mpr hcomb
    unfold RC.filter
    rw [exceptMap_eq_ok]
    exact ⟨l2, hcombE, hmk2⟩
  · intro h
    unfold RC.filter at h
    rw [exceptMap_eq_ok] at h
    obtain ⟨l2, hl2, hmk2⟩ := h
    have hcomb := (filterEvList_okIff _ _ hokIffC rc.values l2).mp hl2
    have hchain := (filterEvList_chain
      (fun x => (e1.run x).2) (fun x => (e2.run x).2) rc.values l2).mpr hcomb
    rw [exceptBind_eq_ok] at hchain
    obtain ⟨l1, hl1P, hl2P⟩ := hchain
    have hl1 : filterEvList (fun r => evaluate (.str e1) none r) rc.values
        = .ok l1 := (filterEvList_okIff _ _ hokIff1 rc.values l1).mpr hl1P
    have hsub1 : l1.Sublist rc.values := filterEvList_sublist _ _ _ hl1
    have hnd1 : (l1.map Res.name).Nodup :=
      List.Nodup.sublist (List.Sublist.map Res.name hsub1) hnd
    have hl2 : filterEvList (fun r => evaluate (.str e2) none r) l1
        = .ok l2 := (filterEvList_okIff _ _ hokIff2 l1 l2).mpr hl2P
    rw [exceptBind_eq_ok]
    refine ⟨mkRC l1 rc.filename, ?_, ?_⟩
    · unfold RC.filter
      rw [exceptMap_eq_ok]
      exact ⟨l1, hl1, rfl⟩
    · unfold RC.filter
      rw [exceptMap_eq_ok]
      refine ⟨l2, ?_, hmk2⟩
      rw [mkRC_values l1 rc.filename hnd1]
      exact hl2

/-- The expression `"tags.gamma"`: truthy exactly on resources carrying the
tag, no `on_error` calls, never raises. -/
def gammaExpr : StrExpr :=
  ⟨"tags.gamma", fun r => ([], .ok (.vbool (r.tags.contains "gamma")))⟩

/-- The expression `"tags.sigma"`. -/
def sigmaExpr : StrExpr :=
  ⟨"tags.sigma", fun r => ([], .ok (.vbool (r.tags.contains "sigma")))⟩

/-- The four-resource collection of the spec's concrete scenario. -/
def ex1RC : RC :=
  mkRC
    [⟨"dataset1", ["alpha", "beta"], []⟩,
     ⟨"dataset2", ["gamma", "delta", "alpha"], []⟩,
     ⟨"dataset3", ["gamma", "sigma", "alpha", "b"], []⟩,
     ⟨"dataset4", ["gamma", "sigma", "alpha", "four"], []⟩]
    "ex1.py"

/-- C8 witness: on the concrete four-resource collection, chaining
`filter("tags.gamma")` and `filter("tags.sigma")` yields `[dataset3,
dataset4]`, the result of `filter("(tags.gamma) and (tags.sigma)")`. -/
theorem filter_chain_equiv_witness :
    ((ex1RC.filter (.str gammaExpr)) >>= fun rc1 => rc1.filter (.str sigmaExpr))
      = .ok (mkRC
          [⟨"dataset3", ["gamma", "sigma", "alpha", "b"], []⟩,
           ⟨"dataset4", ["gamma", "sigma", "alpha", "four"], []⟩]
          "ex1.py") :=
  (filter_chain_equiv ex1RC gammaExpr sigmaExpr
      (mkRC
        [⟨"dataset3", ["gamma", "sigma", "alpha", "b"], []⟩,
         ⟨"dataset4", ["gamma", "sigma", "alpha", "four"], []⟩]
        "ex1.py")
      (fun _ => rfl) (fun _ => rfl) (by decide)).mpr rfl

/-! ## Claim C1: the error policies and row counts of `select` -/

@[simp] theorem exceptToOption_ok {ε α : Type} (a : α) :
    (Except.ok a : Except ε α).toOption = some a := rfl

@[simp] theorem exceptToOption_error {ε α : Type} (e : ε) :
    (Except.error e : Except ε α).toOption = none := rfl

theorem rowCells_none_mode (r : Res) :
    ∀ fields, rowCells false false r fields = .ok (some (rowOf fields r)) := by
  intro fields
  induction fields with
  | nil => simp [rowCells, rowOf]
  | cons f fs ih =>
    cases hev : fieldEval f r with
    | ok v => simp [rowCells, hev, ih, rowOf]
    | error e => simp [rowCells, hev, ih, rowOf]

theorem rowCells_skip_mode (r : Res) :
    ∀ fields, rowCells false true r fields
      = .ok (if rowFails fields r then none else some (rowOf fields r)) := by
  intro fields
  induction fields with
  | nil => simp [rowCells, rowFails, rowOf]
  | cons f fs ih =>
    cases hev : fieldEval f r with
    | error e =>
      have hrf : rowFails (f :: fs) r = true := by
        simp [rowFails, List.any_cons, hev]
      simp [rowCells, hev, hrf]
    | ok v =>
      have hrf : rowFails (f :: fs) r = rowFails fs r := by
        simp [rowFails, List.any_cons, hev]
      cases hfs : rowFails fs r with
      | true => simp [rowCells, hev, ih, hfs, hrf]
      | false => simp [rowCells, hev, ih, hfs, hrf, rowOf]

theorem rowCells_raise_mode (r : Res) (sk : Bool) :
    ∀ fields, rowCells true sk r fields
      = (match firstRowFailure fields r with
         | some e => .error e
         | none => .ok (some (rowOf fields r))) := by
  intro fields
  induction fields with
  | nil => simp [rowCells, firstRowFailure, rowOf]
  | cons f fs ih =>
    cases hev : fieldEval f r with
    | error e =>
      simp [rowCells, hev, firstRowFailure, List.findSome?_cons]
    | ok v =>
      have hfirst : firstRowFailure (f :: fs) r = firstRowFailure fs r := by
        simp [firstRowFailure, List.findSome?_cons, hev]
      rw [hfirst]
      cases hff : firstRowFailure fs r with
      | some e =>
        have := ih
        rw [hff] at this
        simp [rowCells, hev, this]
      | none =>
        have := ih
        rw [hff] at this
        simp [rowCells, hev, this, rowOf]

theorem generateRows_skip_mode (fields : List Field) :
    ∀ rs, generateRows false true fields rs = .ok (skipRows fields rs) := by
  intro rs
  induction rs with
  | nil => simp [generateRows, skipRows]
  | cons r rs ih =>
    rw [generateRows, rowCells_skip_mode r fields]
    cases hrf : rowFails fields r with
    | true => simp [ih, skipRows, List.filterMap_cons, hrf]
    | false => simp [ih, skipRows, List.filterMap_cons, hrf]

theorem generateRows_none_mode (fields : List Field) :
    ∀ rs, generateRows false false fields rs = .ok (rs.map (rowOf fields)) := by
  intro rs
  induction rs with
  | nil => simp [generateRows]
  | cons r rs ih =>
    rw [generateRows, rowCells_none_mode r fields]
    simp [ih]

theorem generateRows_raise_mode (fields : List Field) (sk : Bool) :
    ∀ rs, generateRows true sk fields rs
      = (match firstFailure fields rs with
         | some e => .error e
         | none => .ok (rs.map (rowOf fields))) := by
  intro rs
  induction rs with
  | nil => simp [generateRows, firstFailure]
  | cons r rs ih =>
    rw [generateRows, rowCells_raise_mode r sk fields]
    cases hfr : firstRowFailure fields r with
    | some e => simp [firstFailure, hfr]
    | none =>
      cases hff : firstFailure fields rs with
      | some e =>
        have := ih
        rw [hff] at this
        simp [firstFailure, hfr, hff, this]
      | none =>
        have := ih
        rw [hff] at this
        simp [firstFailure, hfr, hff, this]

theorem skipRows_of_no_failure (fields : List Field) :
    ∀ rs, (∀ r ∈ rs, ∀ f ∈ fields, isOkE (fieldEval f r) = true) →
      skipRows fields rs = rs.map (rowOf fields) := by
  intro rs
  induction rs with
  | nil => intro _; rfl
  | cons r rs ih =>
    intro h
    have hrf : rowFails fields r = false := by
      unfold rowFails
      rw [List.any_eq_false]
      intro f hf
      simp [h r (List.mem_cons_self _ _) f hf]
    rw [skipRows, List.filterMap_cons]
    simp only [hrf, if_neg Bool.false_ne_true]
    rw [List.map_cons]
    congr 1
    exact ih (fun x hx f hf => h x (List.mem_cons_of_mem _ hx) f hf)

/-- C1: the behaviour of `generate_rows` under the three error policies.
With `onError = skip` (`--skip-errors`) every row on which any field fails
is dropped entirely, the result never raises, the row count is at most the
resource count and equals it when no field fails on any resource.  With
`onError = none` (the default) every resource yields a row, with each
failing cell's extractor applied to the null value, so the row count equals
the resource count.  With `onError = raise` (`--stop-on-error`) the first
failure, in resource-major then field order, propagates; when no field
fails, every resource yields its row.  Every produced row has one cell per
field, in field order. -/
theorem select_generate_rows_modes (fields : List Field) (rs : List Res)
    (sk : Bool) :
    generateRows false true fields rs = .ok (skipRows fields rs)
    ∧ (skipRows fields rs).length ≤ rs.length
    ∧ ((∀ r ∈ rs, ∀ f ∈ fields, isOkE (fieldEval f r) = true) →
        skipRows fields rs = rs.map (rowOf fields))
    ∧ generateRows false false fields rs = .ok (rs.map (rowOf fields))
    ∧ (generateRows true sk fields rs
        = (match firstFailure fields rs with
           | some e => .error e
           | none => .ok (rs.map (rowOf fields))))
    ∧ (∀ row ∈ rs.map (rowOf fields), row.length = fields.length) := by
  refine ⟨generateRows_skip_mode fields rs, ?_,
    skipRows_of_no_failure fields rs, generateRows_none_mode fields rs,
    generateRows_raise_mode fields sk rs, ?_⟩
  · exact List.length_filterMap_le _ _
  · intro row hrow
    obtain ⟨r, _, hr⟩ := List.mem_map.mp hrow
    rw [← hr]
    simp [rowOf]

/-- The `name` field: evaluates to the resource's name, rendered through an
extractor substituting null for a failed cell. -/
def nameField : Field :=
  ⟨"name", fun o => o.getD .vnull, .str ⟨"name", fun r => ([], .ok (.vstr r.name))⟩⟩

/-- A field whose expression fails on every resource (a missing
attribute). -/
def badField : Field :=
  ⟨"path", fun o => o.getD .vnull,
   .str ⟨"path", fun _ => ([], .error "AttributeError: path")⟩⟩

/-- Two concrete resources for the `select` scenarios. -/
def exRows : List Res :=
  [⟨"dataset1", ["alpha"], []⟩, ⟨"dataset2", ["beta"], []⟩]

/-- C1 witness: over two resources and the fields `name` (always succeeds)
and `path` (always fails): skip-errors mode drops both rows; the default
mode yields both rows with null in the failing cell; stop-on-error mode
propagates the first failure; and with only the `name` field no row is
dropped in skip mode. -/
theorem select_generate_rows_modes_witness :
    generateRows false true [nameField, badField] exRows = .ok []
    ∧ generateRows false false [nameField, badField] exRows
      = .ok [[.vstr "dataset1", .vnull], [.vstr "dataset2", .vnull]]
    ∧ generateRows true false [nameField, badField] exRows
      = .error ⟨"path", "dataset1", "AttributeError: path"⟩
    ∧ skipRows [nameField] exRows = exRows.map (rowOf [nameField]) := by
  refine ⟨?_, ?_, ?_, ?_⟩
  · exact ((select_generate_rows_modes [nameField, badField] exRows
      false).1).trans (by rfl)
  · exact ((select_generate_rows_modes [nameField, badField] exRows
      false).2.2.2.1).trans (by rfl)
  · exact ((select_generate_rows_modes [nameField, badField] exRows
      false).2.2.2.2.1).trans (by rfl)
  · exact (select_generate_rows_modes [nameField] exRows false).2.2.1
      (by decide)

/-! ## Claim C2: checker alignment in the aggregator -/

/-- `rowCheck` is characterised by the row's first mismatch: with none, it
collects the labelled triples; with a mismatch at relative index `j`, it
raises for checker `i + j`. -/
theorem rowCheck_spec (labels : List String) (expected : Res) :
    ∀ (vs : List Verdict) (i : Nat),
      rowCheck labels expected i vs
        = (match rowMismatch expected vs with
           | none => .ok (rowTuples labels i vs)
           | some a => .error ⟨i + a.idx, a.got, a.expected⟩) := by
  intro vs
  induction vs with
  | nil => intro i; simp [rowCheck, rowMismatch, rowTuples]
  | cons v vs ih =>
    intro i
    by_cases hv : v.res = expected
    · rw [rowCheck, if_pos hv, ih (i + 1)]
      cases hm : rowMismatch expected vs with
      | none => simp [rowMismatch, hv, hm, rowTuples]
      | some a =>
        simp only [rowMismatch, if_pos hv, hm, Option.map_some']
        have : i + 1 + a.idx = i + (a.idx + 1) := by omega
        simp [this]
    · rw [rowCheck, if_neg hv]
      simp [rowMismatch, hv]

/-- C2 (amended): the aggregator pairs resources with checker verdicts only
along the common prefix of the collection and all checker output sequences
(Python's `zip`): a checker producing fewer items than the collection
silently truncates the report to the shortest sequence and extra items are
ignored, with no error; if within that common prefix some checker's verdict
reports a resource different from the collection's resource at that
position, `check` raises a `ValueError` naming the least offending checker
index and the two resources involved, after having yielded the report rows
for the earlier positions; and when every checker reports exactly the
collection's resources in order, `check` yields, per resource in collection
order, that resource paired with one `(checkerLabel, attempted, problem)`
triple per checker.  All of this is the statement that `checkRows` equals
the reference description `specCheck`. -/
theorem check_lockstep_spec (labels : List String) :
    ∀ (rs : List Res) (gens : List (List Verdict)),
      checkRows labels rs gens = specCheck labels rs gens := by
  intro rs
  induction rs with
  | nil => intro gens; simp [checkRows, specCheck, zipRows]
  | cons r rs ih =>
    intro gens
    cases hh : allHeads gens with
    | none => simp [checkRows, specCheck, zipRows, hh]
    | some ht =>
      obtain ⟨heads, tails⟩ := ht
      rw [checkRows]
      simp only [hh]
      rw [rowCheck_spec labels r heads 0]
      cases hm : rowMismatch r heads with
      | some a =>
        simp only
        unfold specCheck
        rw [zipRows]
        simp only [hh]
        rw [List.takeWhile_cons, List.dropWhile_cons]
        simp [hm]
      | none =>
        simp only
        rw [ih tails]
        unfold specCheck
        rw [zipRows]
        simp only [hh]
        rw [List.takeWhile_cons, List.dropWhile_cons]
        simp [hm]

/-- A second concrete resource for the checker scenarios. -/
def dataset2 : Res := ⟨"dataset2", ["gamma", "delta", "alpha"], []⟩

/-- C2, counterexample: a checker whose output sequence is shorter than the
collection (one verdict for two resources).  The claim requires `check` to
fail with a `CheckerAlignmentError` before yielding a partial report; the
code instead yields the one zipped report row and finishes with no error
(`zip` truncates at the shortest sequence). -/
theorem check_short_checker_counterexample :
    checkRows ["checker0"] [dataset1, dataset2] [[⟨dataset1, true, none⟩]]
      = ([(dataset1, [("checker0", true, none)])], none) := by
  rfl

/-! ## Claim C7: the plain-types serialization round trip -/

theorem asTagListGo_strTagList : ∀ l, asTagList.go (strTagList l) = .ok l := by
  intro l
  induction l with
  | nil => rfl
  | cons s ss ih => simp [strTagList, asTagList.go, ih]

theorem mapM_checkValidTag_ok :
    ∀ (l : List String), (∀ t ∈ l, isOkE (checkValidTag t) = true) →
      l.mapM checkValidTag = .ok (l.map (fun _ => ())) := by
  intro l
  induction l with
  | nil => intro _; rfl
  | cons t ts ih =>
    intro h
    have hok : checkValidTag t = .ok () := by
      have := h t (List.mem_cons_self _ _)
      cases hc : checkValidTag t with
      | ok u => cases u; rfl
      | error e => rw [hc] at this; cases this
    rw [List.mapM_cons, hok, ih (fun x hx => h x (List.mem_cons_of_mem _ hx))]
    rfl

theorem mkTags_of_valid (l : List String)
    (h : ∀ t ∈ l, isOkE (checkValidTag t) = true) : mkTags l = .ok l := by
  unfold mkTags
  rw [mapM_checkValidTag_ok l h]

/-- Reconstructing a resource from its own plain form gives it back. -/
theorem mkResource_plain (r : Res)
    (htags : ∀ t ∈ r.tags, isOkE (checkValidTag t) = true)
    (hattrs : ∀ p ∈ r.attrs, ((p.1 != "name") && (p.1 != "tags")) = true) :
    mkResource r.name (resourceToPlainTypes r) = .ok r := by
  unfold mkResource resourceToPlainTypes
  have hfind : lookupA
      (("tags", Value.vlist (strTagList r.tags)) ::
        r.attrs.filter (fun p => (p.1 != "name") && (p.1 != "tags"))) "tags"
      = some (.vlist (strTagList r.tags)) := by
    simp [lookupA, List.find?]
  rw [hfind]
  simp only [Option.getD_some]
  show (asTagList.go (strTagList r.tags) >>= fun tagStrs => _) = _
  rw [asTagListGo_strTagList r.tags]
  simp only [exceptBind_ok]
  rw [mkTags_of_valid r.tags htags]
  simp only [exceptBind_ok]
  rw [List.filter_cons]
  have hhead : (("tags" != "name") && ("tags" != "tags")) = false := by decide
  rw [hhead]
  simp only [Bool.false_eq_true, if_neg (by simp : ¬False)]
  rw [List.filter_filter]
  have : (fun p : String × Value =>
      ((p.1 != "name") && (p.1 != "tags")) && ((p.1 != "name") && (p.1 != "tags")))
      = fun p => (p.1 != "name") && (p.1 != "tags") := by
    funext p
    cases hb : ((p.1 != "name") && (p.1 != "tags")) <;> simp [hb]
  rw [this, List.filter_eq_self.mpr hattrs]

theorem mapM_resources_ok :
    ∀ (l : List Res),
      (∀ r ∈ l, mkResource r.name (resourceToPlainTypes r) = .ok r) →
      (l.map (fun r => (r.name, resourceToPlainTypes r))).mapM
        (fun p => mkResource p.1 p.2) = .ok l := by
  intro l
  induction l with
  | nil => intro _; rfl
  | cons r rs ih =>
    intro h
    rw [List.map_cons, List.mapM_cons]
    simp only
    rw [h r (List.mem_cons_self _ _),
      ih (fun x hx => h x (List.mem_cons_of_mem _ hx))]
    rfl

/-- C7: for every well-formed collection — distinct current resource names,
valid tags, and attribute keys distinct from `name`/`tags` — serializing to
plain types (`to_plain_types` per resource, the name-keyed mapping per
collection), rendering to JSON and parsing it back (the identity on this
plain-type domain), and reconstructing `Resource`s through the JSON branch
of `loads` yields a collection with exactly the original resources: the
same names in the same order, and per resource the same tags and the same
attribute mapping. -/
theorem plain_types_roundtrip (rc : RC)
    (hnd : (rc.values.map Res.name).Nodup)
    (htags : ∀ r ∈ rc.values, ∀ t ∈ r.tags, isOkE (checkValidTag t) = true)
    (hattrs : ∀ r ∈ rc.values, ∀ p ∈ r.attrs,
      ((p.1 != "name") && (p.1 != "tags")) = true) :
    loadsJson (collectionToPlainTypes rc) rc.filename
      = .ok (mkRC rc.values rc.filename)
    ∧ (mkRC rc.values rc.filename).values = rc.values := by
  refine ⟨?_, mkRC_values rc.values rc.filename hnd⟩
  unfold loadsJson collectionToPlainTypes
  have hkeys : ((rc.values.map
      (fun r => (r.name, resourceToPlainTypes r))).map Prod.fst).Nodup := by
    simpa [List.map_map, Function.comp] using hnd
  rw [odOfPairs_eq_self _ hkeys]
  rw [mapM_resources_ok rc.values
    (fun r hr => mkResource_plain r (htags r hr) (hattrs r hr))]
  rfl

/-- C7 witness: the concrete four-resource collection round-trips to
itself. -/
theorem plain_types_roundtrip_witness :
    loadsJson (collectionToPlainTypes ex1RC) ex1RC.filename
      = .ok (mkRC ex1RC.values ex1RC.filename)
    ∧ (mkRC ex1RC.values ex1RC.filename).values = ex1RC.values :=
  plain_types_roundtrip ex1RC (by decide) (by decide) (by decide)

end Sefara
